import Mathlib

/-!
# Verification of the shrine-map scraping pipeline

Shallow embedding of the extraction-and-enrichment pipeline of the
`shrine-map` repository (scripts `scrape-shrines.py`, `info-grip.py`,
`geo_conv.py`), together with theorems settling the frozen claims about it.

Modelling conventions:
* Python strings are modelled as `String` / `List Char`; Python `re` patterns
  used by the scripts are compiled by hand into deterministic scanning
  functions over `List Char` (each one is documented with the pattern it
  embeds, and the leftmost-match / non-overlapping-substitution semantics of
  `re.search` / `re.sub` / `re.findall` are reproduced directly).
* `\d` is modelled as the Unicode decimal digits (category Nd, `pyIsDigit` —
  including e.g. the fullwidth digits ０-９) and `\s` as the Unicode
  whitespace class (`pyIsSpace`, including U+3000), the classes Python's `re`
  uses for `str` patterns.
* Floating point values returned by the geocoder are modelled as `Rat`;
  Python `float(...)` string parsing is modelled by `pyParseFloat`
  (finite decimal/exponent literals; `inf`/`nan` literals are out of scope
  of every claim and are not modelled).
* The network is an oracle supplied to the pipeline: a `curl` invocation is a
  function from URL to a `CurlResult` (exit code and captured stdout), and a
  geocoding response is supplied already split into "JSON decode failed"
  (`Except.error ()`) versus a decoded `JsonValue`.
-/

/-- Python's whitespace class for `str` regexes and `str.strip`
(ASCII whitespace plus the Unicode space characters). -/
def pyIsSpace (c : Char) : Bool :=
  c = ' ' || c = '\t' || c = '\n' || c = '\r' || c = '\x0b' || c = '\x0c' ||
  (0x1c ≤ c.toNat && c.toNat ≤ 0x1f) || c.toNat = 0x85 || c.toNat = 0xa0 ||
  c.toNat = 0x1680 || (0x2000 ≤ c.toNat && c.toNat ≤ 0x200a) ||
  c.toNat = 0x2028 || c.toNat = 0x2029 || c.toNat = 0x202f ||
  c.toNat = 0x205f || c.toNat = 0x3000

/-- Drop the longest run of characters satisfying `p` from the end of a list
(the right-hand half of Python's `str.strip`). -/
def dropRightWhile (p : Char → Bool) : List Char → List Char
  | [] => []
  | c :: rest =>
    match dropRightWhile p rest with
    | [] => if p c then [] else [c]
    | r => c :: r

/-- Python `str.strip()` on a character list. -/
def pyStrip (l : List Char) : List Char :=
  dropRightWhile pyIsSpace (l.dropWhile pyIsSpace)

/-- `re.sub(r'\s+', ' ', s)`: every maximal whitespace run becomes one `' '`. -/
def collapseWs : List Char → List Char
  | [] => []
  | [c] => if pyIsSpace c then [' '] else [c]
  | a :: b :: rest =>
    if pyIsSpace a && pyIsSpace b then collapseWs (b :: rest)
    else (if pyIsSpace a then ' ' else a) :: collapseWs (b :: rest)

/-- `re.sub(r'<[^>]+>', ' ', s)` as a one-pass automaton.  The second
argument is the input; the first is `some buf` when the scanner has passed an
unmatched `'<'` and `buf` holds (reversed) the non-`'>'` characters seen since.
A `'>'` closing a nonempty buffer replaces the whole `<...>` span by `' '`;
`<>` does not match the pattern and is emitted literally, and an unclosed
`'<'` at the end of input is emitted literally. -/
def rmTagsGo : Option (List Char) → List Char → List Char
  | none, [] => []
  | some buf, [] => '<' :: buf.reverse
  | none, c :: rest =>
    if c = '<' then rmTagsGo (some []) rest else c :: rmTagsGo none rest
  | some buf, c :: rest =>
    if c = '>' then
      if buf.isEmpty then '<' :: '>' :: rmTagsGo none rest
      else ' ' :: rmTagsGo none rest
    else rmTagsGo (some (c :: buf)) rest

/-- Strip HTML-tag-like spans: `re.sub(r'<[^>]+>', ' ', s)`. -/
def rmTags (l : List Char) : List Char := rmTagsGo none l

/-- The codepoint ranges of the Unicode general category Nd (decimal digits),
Unicode 14.0: the character class Python's `\d` matches on `str` patterns. -/
def ndDigitRanges : List (Nat × Nat) := [
  (0x30, 0x39), (0x660, 0x669), (0x6f0, 0x6f9), (0x7c0, 0x7c9),
  (0x966, 0x96f), (0x9e6, 0x9ef), (0xa66, 0xa6f), (0xae6, 0xaef),
  (0xb66, 0xb6f), (0xbe6, 0xbef), (0xc66, 0xc6f), (0xce6, 0xcef),
  (0xd66, 0xd6f), (0xde6, 0xdef), (0xe50, 0xe59), (0xed0, 0xed9),
  (0xf20, 0xf29), (0x1040, 0x1049), (0x1090, 0x1099), (0x17e0, 0x17e9),
  (0x1810, 0x1819), (0x1946, 0x194f), (0x19d0, 0x19d9), (0x1a80, 0x1a89),
  (0x1a90, 0x1a99), (0x1b50, 0x1b59), (0x1bb0, 0x1bb9), (0x1c40, 0x1c49),
  (0x1c50, 0x1c59), (0xa620, 0xa629), (0xa8d0, 0xa8d9), (0xa900, 0xa909),
  (0xa9d0, 0xa9d9), (0xa9f0, 0xa9f9), (0xaa50, 0xaa59), (0xabf0, 0xabf9),
  (0xff10, 0xff19), (0x104a0, 0x104a9), (0x10d30, 0x10d39), (0x11066, 0x1106f),
  (0x110f0, 0x110f9), (0x11136, 0x1113f), (0x111d0, 0x111d9), (0x112f0, 0x112f9),
  (0x11450, 0x11459), (0x114d0, 0x114d9), (0x11650, 0x11659), (0x116c0, 0x116c9),
  (0x11730, 0x11739), (0x118e0, 0x118e9), (0x11950, 0x11959), (0x11c50, 0x11c59),
  (0x11d50, 0x11d59), (0x11da0, 0x11da9), (0x16a60, 0x16a69), (0x16ac0, 0x16ac9),
  (0x16b50, 0x16b59), (0x1d7ce, 0x1d7ff), (0x1e140, 0x1e149), (0x1e2f0, 0x1e2f9),
  (0x1e950, 0x1e959), (0x1fbf0, 0x1fbf9)]

/-- Python's `\d` on `str` patterns: every Unicode decimal digit (category
Nd), e.g. also the fullwidth digits ０-９ — not just ASCII `0`-`9`. -/
def pyIsDigit (c : Char) : Bool :=
  ndDigitRanges.any (fun r => r.1 ≤ c.toNat && c.toNat ≤ r.2)

/-- Try to read `\d{3}-\d{4}` at the head of the list (the shape of a
postal-code match after the `'〒'` mark). -/
def zipTry : List Char → Option (List Char)
  | a :: b :: c :: '-' :: d :: e :: f :: g :: _ =>
    if pyIsDigit a && pyIsDigit b && pyIsDigit c &&
       pyIsDigit d && pyIsDigit e && pyIsDigit f && pyIsDigit g then
      some [a, b, c, '-', d, e, f, g]
    else none
  | _ => none

/-- `re.sub(r'〒\d{3}-\d{4}\s*', '', s)` as a one-pass automaton over the
states `0` (normal scan), `1` (consuming the greedy `\s*` run after a removed
match) and `s + 2` (still deleting `s + 1` characters of a matched
`\d{3}-\d{4}` group). -/
def rmZipAuto : Nat → List Char → List Char
  | _, [] => []
  | st + 2, _ :: rest => rmZipAuto (st + 1) rest
  | 1, c :: rest =>
    if pyIsSpace c then rmZipAuto 1 rest
    else if c = '〒' && (zipTry rest).isSome then rmZipAuto 9 rest
    else c :: rmZipAuto 0 rest
  | 0, c :: rest =>
    if c = '〒' && (zipTry rest).isSome then rmZipAuto 9 rest
    else c :: rmZipAuto 0 rest

/-- Remove `〒ddd-dddd` (plus trailing whitespace) occurrences from a string. -/
def rmZip (l : List Char) : List Char := rmZipAuto 0 l

/-- `re.search` for patterns of shape `LITERAL · TAIL`: try every start
position from the left; at a position where the literal `pat` matches, run
the deterministic tail matcher `k` on the remainder, and fall through to the
next start position when it fails. -/
def searchWith {α : Type} (pat : List Char) (k : List Char → Option α) :
    List Char → Option α
  | [] => none
  | c :: rest =>
    match (if pat.isPrefixOf (c :: rest) then k ((c :: rest).drop pat.length) else none) with
    | some a => some a
    | none => searchWith pat k rest

/-- `\s*` — skip the (maximal) whitespace run; no backtracking is needed since
the following literal starts with `'<'`, which is not whitespace. -/
def skipWsL (s : List Char) : List Char := s.dropWhile pyIsSpace

/-- `<td[^>]*>` — the literal `<td`, the run of non-`'>'` characters, and the
closing `'>'`. -/
def tdOpenTail (s : List Char) : Option (List Char) :=
  if ['<', 't', 'd'].isPrefixOf s then
    match (s.drop 3).dropWhile (fun c => c != '>') with
    | '>' :: r => some r
    | _ => none
  else none

/-- `<a[^>]*>` (the optional inline link element wrapping a value). -/
def aTagTail (s : List Char) : Option (List Char) :=
  if ['<', 'a'].isPrefixOf s then
    match (s.drop 2).dropWhile (fun c => c != '>') with
    | '>' :: r => some r
    | _ => none
  else none

/-- `([^<]+)` — the greedy nonempty capture of non-`'<'` characters. -/
def captureNonLt (s : List Char) : Option (List Char) :=
  let v := s.takeWhile (fun c => c != '<')
  if v.isEmpty then none else some v

/-- Tail matcher for the plain value fields: `\s*<td[^>]*>([^<]+)`. -/
def fieldTail (s : List Char) : Option (List Char) :=
  (tdOpenTail (skipWsL s)).bind captureNonLt

/-- Tail matcher of the name field: `\s*<td[^>]*>(?:<a[^>]*>)?([^<]+)`.
If `<a...>` matches but the capture after it fails, the variant without the
optional group also fails (it would have to start at `'<'`), so no
backtracking is required. -/
def nameTail (s : List Char) : Option (List Char) :=
  (tdOpenTail (skipWsL s)).bind fun r =>
    match aTagTail r with
    | some r2 => captureNonLt r2
    | none => captureNonLt r

/-- The characters preceding the leftmost occurrence of `pat` (the lazy
capture `(.*?)` in DOTALL mode followed by the literal `pat`); `none` when
`pat` does not occur. -/
def splitFirst (pat : List Char) : List Char → Option (List Char)
  | [] => none
  | c :: rest =>
    if pat.isPrefixOf (c :: rest) then some []
    else (splitFirst pat rest).map (c :: ·)

/-- Tail matcher of the address field: `\s*<td[^>]*>(.*?)</td>` (DOTALL). -/
def addrTail (s : List Char) : Option (List Char) :=
  (tdOpenTail (skipWsL s)).bind (splitFirst "</td>".data)

/-- The label anchor literal `<td>LABEL</td>`. -/
def labelPat (label : String) : List Char := ("<td>" ++ label ++ "</td>").data

/-- `re.search(r'〒(\d{3}-\d{4})', html)` — leftmost occurrence, returning the
captured digit group. -/
def zipSearch : List Char → Option (List Char)
  | [] => none
  | c :: rest =>
    if c = '〒' then
      match zipTry rest with
      | some z => some z
      | none => zipSearch rest
    else zipSearch rest

/-- The four prefecture-class suffix characters 都/道/府/県. -/
def prefSuffixChar (c : Char) : Bool :=
  c = '都' || c = '道' || c = '府' || c = '県'

/-- `re.match(r'^(.+?[都道府県])', addr)`: the shortest prefix of length ≥ 2
whose last character is a prefecture suffix, where the `.`-matched characters
must not be newlines.  `acc` holds (reversed) the characters consumed so far
by `.+?`. -/
def prefScan : List Char → List Char → Option (List Char)
  | _, [] => none
  | acc, c :: rest =>
    if !acc.isEmpty && prefSuffixChar c then some ((c :: acc).reverse)
    else if c = '\n' then none
    else prefScan (c :: acc) rest

/-- The cleaning pipeline the script applies to the raw address cell:
strip tags, strip `〒ddd-dddd` plus trailing whitespace, collapse whitespace
runs, strip the ends. -/
def cleanAddrChars (l : List Char) : List Char :=
  pyStrip (collapseWs (rmZip (rmTags l)))

/-- The partial record produced by `extract_shrine_info`: one `Option` per
dictionary key the Python function may set. -/
structure Info where
  name : Option String
  reading : Option String
  province : Option String
  deity : Option String
  virtue : Option String
  address : Option String
  zip : Option String
  tel : Option String
  prefecture : Option String
deriving DecidableEq, Repr

/-- `extract_shrine_info(html)` of `scrape-shrines.py`: independent
label-anchored field rules, postal-code search over the raw markup, address
cleaning, and prefecture derivation from the cleaned address. -/
def extract_shrine_info (html : String) : Info :=
  let h := html.data
  let address := (searchWith (labelPat "所在地") addrTail h).map
    (fun v => String.mk (cleanAddrChars v))
  { name := (searchWith (labelPat "神社名") nameTail h).map
      (fun v => String.mk (pyStrip v))
    reading := (searchWith (labelPat "神社名(読み方)") fieldTail h).map
      (fun v => String.mk (pyStrip v))
    province := (searchWith (labelPat "旧国名") fieldTail h).map
      (fun v => String.mk (pyStrip v))
    deity := (searchWith (labelPat "祭神") fieldTail h).map
      (fun v => String.mk (pyStrip v))
    virtue := (searchWith (labelPat "御神徳") fieldTail h).map
      (fun v => String.mk (pyStrip v))
    address := address
    zip := (zipSearch h).map String.mk
    tel := (searchWith (labelPat "電話番号") fieldTail h).map
      (fun v => String.mk (pyStrip v))
    prefecture := address.bind (fun a => (prefScan [] a.data).map String.mk) }

/-! ## Link discovery (`extract_links`) -/

/-- `S` matches `[^"]+/[^"]+/` exactly when it ends in `'/'` and has another
`'/'` at some position `i` with `1 ≤ i ≤ |S| - 3` (so that both `[^"]+`
groups are nonempty); `(S.dropLast.drop 1).dropLast` is precisely the list of
characters at those positions. -/
def validLinkBody (s : List Char) : Bool :=
  s.getLast? = some '/' && ((s.dropLast.drop 1).dropLast).any (fun c => c = '/')

/-- The literal head of the link pattern `href="(/alllist/[^"]+/[^"]+/)"`. -/
def hrefPat : List Char := "href=\"/alllist/".data

/-- Attempt the link pattern at the current position.  Since `[^"]` excludes
the quote, a match must extend exactly to the next `'"'`; the captured group
is everything between the quotes, and it must satisfy `validLinkBody` after
the `/alllist/` root. -/
def tryHref (l : List Char) : Option (List Char) :=
  if hrefPat.isPrefixOf l then
    match (l.drop 6).dropWhile (fun c => c != '"') with
    | '"' :: _ =>
      if validLinkBody (((l.drop 6).takeWhile (fun c => c != '"')).drop 9) then
        some ((l.drop 6).takeWhile (fun c => c != '"'))
      else none
    | _ => none
  else none

/-- `re.findall(r'href="(/alllist/[^"]+/[^"]+/)"', html)`.  Advancing one
position at a time is equivalent to skipping past each match, because a
matched span contains no quote in its interior and hence no nested
`href="`. -/
def linkScan : List Char → List (List Char)
  | [] => []
  | c :: rest =>
    match tryHref (c :: rest) with
    | some link => link :: linkScan rest
    | none => linkScan rest

/-- Python's `ext in link` substring test. -/
def isSubstr (pat : List Char) : List Char → Bool
  | [] => pat.isEmpty
  | c :: rest => pat.isPrefixOf (c :: rest) || isSubstr pat rest

/-- The image-extension filter of `extract_links`. -/
def noImgExt (link : List Char) : Bool :=
  !(isSubstr ".jpg".data link || isSubstr ".png".data link ||
    isSubstr ".gif".data link)

/-- Keep the first occurrence of each element (the effect of `set(...)` once
the result is sorted: any duplicate-free enumeration gives the same sorted
list). -/
def dedupSeen {α : Type} [DecidableEq α] (seen : List α) : List α → List α
  | [] => []
  | x :: xs =>
    if x ∈ seen then dedupSeen seen xs else x :: dedupSeen (x :: seen) xs

/-- Duplicate removal keeping first occurrences. -/
def dedupFirst {α : Type} [DecidableEq α] (l : List α) : List α :=
  dedupSeen [] l

/-- Python string `<`: lexicographic comparison by code points. -/
def listLt : List Char → List Char → Bool
  | [], [] => false
  | [], _ :: _ => true
  | _ :: _, [] => false
  | a :: as, b :: bs => if a < b then true else if b < a then false else listLt as bs

/-- Insert into a sorted list (ascending). -/
def insLink (x : List Char) : List (List Char) → List (List Char)
  | [] => [x]
  | y :: rest => if listLt x y then x :: y :: rest else y :: insLink x rest

/-- `sorted(...)` on a duplicate-free list of strings: insertion sort in the
code-point order (the ascending enumeration of a set of distinct strings is
unique, so any correct sort models `sorted`). -/
def insSort (l : List (List Char)) : List (List Char) := l.foldr insLink []

/-- `extract_links(html)` of `scrape-shrines.py`: find all link-pattern
matches, drop links containing an image extension, and return
`sorted(list(set(...)))`. -/
def extract_links (html : String) : List String :=
  (insSort (dedupFirst ((linkScan html.data).filter noImgExt))).map String.mk

/-- Number of path segments after the `/alllist/` section root of a link that
ends in `'/'`: each segment contributes exactly one `'/'`. -/
def segsAfterRoot (link : String) : Nat :=
  ((link.data.drop 9).count '/')

/-! ## Region extraction (`extract_region`) -/

/-- Hex digit value for percent-decoding. -/
def hexVal (c : Char) : Option Nat :=
  if '0' ≤ c && c ≤ '9' then some (c.toNat - 48)
  else if 'a' ≤ c && c ≤ 'f' then some (c.toNat - 87)
  else if 'A' ≤ c && c ≤ 'F' then some (c.toNat - 55)
  else none

/-- UTF-8 encode one scalar value. -/
def encodeChar (c : Char) : List Nat :=
  let n := c.toNat
  if n < 0x80 then [n]
  else if n < 0x800 then [0xc0 + n / 64, 0x80 + n % 64]
  else if n < 0x10000 then [0xe0 + n / 4096, 0x80 + n / 64 % 64, 0x80 + n % 64]
  else [0xf0 + n / 262144, 0x80 + n / 4096 % 64, 0x80 + n / 64 % 64, 0x80 + n % 64]

/-- Percent-decode to a byte sequence (`urllib.parse.unquote` leaves an
invalid escape as a literal `'%'` and resumes right after it). -/
def pctDecode : List Char → List Nat
  | [] => []
  | '%' :: h1 :: h2 :: rest =>
    match hexVal h1, hexVal h2 with
    | some a, some b => (16 * a + b) :: pctDecode rest
    | _, _ => encodeChar '%' ++ pctDecode (h1 :: h2 :: rest)
  | c :: rest => encodeChar c ++ pctDecode rest

/-- Is `b` a UTF-8 continuation byte? -/
def isCont (b : Nat) : Bool := 0x80 ≤ b && b ≤ 0xbf

/-- The U+FFFD replacement character. -/
def replChar : Char := Char.ofNat 0xfffd

/-- UTF-8 decoding with replacement of invalid sequences (the
`errors='replace'` policy of `urllib.parse.unquote`, approximated by skipping
one byte per error).  The `Nat` argument is fuel, set to the byte count by
`utf8Dec`: every step consumes at least one byte and one unit of fuel, so the
fuel never runs out on the initial call. -/
def utf8DecF : Nat → List Nat → List Char
  | 0, _ => []
  | _ + 1, [] => []
  | fuel + 1, b :: rest =>
    if b < 0x80 then Char.ofNat b :: utf8DecF fuel rest
    else if 0xc2 ≤ b && b ≤ 0xdf then
      match rest with
      | b2 :: r2 =>
        if isCont b2 then Char.ofNat ((b - 0xc0) * 64 + (b2 - 0x80)) :: utf8DecF fuel r2
        else replChar :: utf8DecF fuel rest
      | [] => replChar :: utf8DecF fuel rest
    else if 0xe0 ≤ b && b ≤ 0xef then
      match rest with
      | b2 :: b3 :: r3 =>
        if isCont b2 && isCont b3 then
          let n := (b - 0xe0) * 4096 + (b2 - 0x80) * 64 + (b3 - 0x80)
          if n < 0x800 || (0xd800 ≤ n && n ≤ 0xdfff) then replChar :: utf8DecF fuel rest
          else Char.ofNat n :: utf8DecF fuel r3
        else replChar :: utf8DecF fuel rest
      | _ => replChar :: utf8DecF fuel rest
    else if 0xf0 ≤ b && b ≤ 0xf4 then
      match rest with
      | b2 :: b3 :: b4 :: r4 =>
        if isCont b2 && isCont b3 && isCont b4 then
          let n := (b - 0xf0) * 262144 + (b2 - 0x80) * 4096 + (b3 - 0x80) * 64 + (b4 - 0x80)
          if n < 0x10000 || 0x10ffff < n then replChar :: utf8DecF fuel rest
          else Char.ofNat n :: utf8DecF fuel r4
        else replChar :: utf8DecF fuel rest
      | _ => replChar :: utf8DecF fuel rest
    else replChar :: utf8DecF fuel rest

/-- UTF-8 decode a byte sequence, replacing invalid sequences. -/
def utf8Dec (l : List Nat) : List Char := utf8DecF l.length l

/-- `urllib.parse.unquote(link, encoding='utf-8')`. -/
def unquote (s : String) : String := String.mk (utf8Dec (pctDecode s.data))

/-- Python `str.split('/')` (keeping empty pieces). -/
def splitSlash : List Char → List (List Char)
  | [] => [[]]
  | '/' :: rest => [] :: splitSlash rest
  | c :: rest =>
    match splitSlash rest with
    | p :: ps => (c :: p) :: ps
    | [] => [[c]]

/-- `extract_region(link)` of `scrape-shrines.py`: percent-decode, split on
`'/'`, return the third piece when there are at least three. -/
def extract_region (link : String) : String :=
  let parts := splitSlash (unquote link).data
  if 3 ≤ parts.length then String.mk (parts.getD 2 []) else ""

/-! ## Geocoder client (`geocode_shrine`)

`geocode_shrine` runs `json.loads` on the curl output and then evaluates
`if data and len(data) > 0: return float(data[0]['lat']), float(data[0]['lon'])`
inside a `try` that catches exactly `json.JSONDecodeError`, `KeyError` and
`IndexError`.  The decoded response is modelled by `JsonValue` (with a
decoding failure as `Except.error ()`), and the Python dynamic-typing
behaviour of each primitive — including the exceptions it raises — is
embedded explicitly. -/

/-- A decoded JSON document. -/
inductive JsonValue : Type
  | null : JsonValue
  | bool : Bool → JsonValue
  | num : Rat → JsonValue
  | str : String → JsonValue
  | arr : List JsonValue → JsonValue
  | obj : List (String × JsonValue) → JsonValue
deriving Repr

/-- The Python exceptions the geocoder's code can raise. -/
inductive PyError : Type
  | typeError : PyError
  | valueError : PyError
  | keyError : PyError
  | indexError : PyError
deriving DecidableEq, Repr

/-- Python truthiness of a JSON value. -/
def truthy : JsonValue → Bool
  | .null => false
  | .bool b => b
  | .num q => q != 0
  | .str s => s != ""
  | .arr xs => !xs.isEmpty
  | .obj kvs => !kvs.isEmpty

/-- Python `len(...)`: defined for strings, lists and dicts, `TypeError`
otherwise. -/
def pyLen : JsonValue → Except PyError Nat
  | .str s => .ok s.length
  | .arr xs => .ok xs.length
  | .obj kvs => .ok kvs.length
  | _ => .error .typeError

/-- Python `data[0]`: list indexing (IndexError when empty), string indexing,
dict lookup with the integer key `0` (always a `KeyError`, JSON object keys
being strings), `TypeError` on anything else. -/
def pyIndex0 : JsonValue → Except PyError JsonValue
  | .arr [] => .error .indexError
  | .arr (x :: _) => .ok x
  | .str s =>
    match s.data with
    | [] => .error .indexError
    | c :: _ => .ok (.str (String.mk [c]))
  | .obj _ => .error .keyError
  | _ => .error .typeError

/-- Python `v[key]` for a string key: dict lookup with `KeyError` on a
missing key; strings and lists raise `TypeError` for non-integer indices;
other values are not subscriptable. -/
def pySubscript (v : JsonValue) (key : String) : Except PyError JsonValue :=
  match v with
  | .obj kvs =>
    match kvs.lookup key with
    | some w => .ok w
    | none => .error .keyError
  | _ => .error .typeError

/-- Numeric value of a digit run. -/
def digitsVal (l : List Char) : Nat :=
  l.foldl (fun n c => n * 10 + (c.toNat - 48)) 0

/-- The exponent part of a Python float literal (after `e`/`E`). -/
def parseExpPart (l : List Char) : Option Rat :=
  let (neg, l1) :=
    match l with
    | '+' :: r => (false, r)
    | '-' :: r => (true, r)
    | r => (false, r)
  if l1.isEmpty || !l1.all Char.isDigit then none
  else
    let e : Rat := (10 : Rat) ^ digitsVal l1
    some (if neg then e⁻¹ else e)

/-- Python `float(s)` on a string: optional surrounding whitespace, optional
sign, decimal digits with optional fraction, optional exponent (`inf`/`nan`
spellings are outside the scope of every claim and are not modelled). -/
def pyParseFloat (s : List Char) : Option Rat :=
  let t := dropRightWhile pyIsSpace (s.dropWhile pyIsSpace)
  let (sgn, t1) : Rat × List Char :=
    match t with
    | '+' :: r => (1, r)
    | '-' :: r => (-1, r)
    | r => (1, r)
  let ip := t1.takeWhile Char.isDigit
  let t2 := t1.dropWhile Char.isDigit
  match t2 with
  | [] => if ip.isEmpty then none else some (sgn * digitsVal ip)
  | '.' :: r =>
    let fp := r.takeWhile Char.isDigit
    let t3 := r.dropWhile Char.isDigit
    if ip.isEmpty && fp.isEmpty then none
    else
      let mant : Rat := (digitsVal ip : Rat) + (digitsVal fp : Rat) / (10 : Rat) ^ fp.length
      match t3 with
      | [] => some (sgn * mant)
      | e :: r2 =>
        if e = 'e' || e = 'E' then (parseExpPart r2).map (fun ex => sgn * mant * ex)
        else none
  | e :: r2 =>
    if (e = 'e' || e = 'E') && !ip.isEmpty then
      (parseExpPart r2).map (fun ex => sgn * (digitsVal ip : Rat) * ex)
    else none

/-- Python `float(v)`: numbers and booleans convert, strings are parsed
(`ValueError` on failure), `None`, lists and dicts raise `TypeError`. -/
def pyFloat : JsonValue → Except PyError Rat
  | .num q => .ok q
  | .bool b => .ok (if b then 1 else 0)
  | .str s =>
    match pyParseFloat s.data with
    | some q => .ok q
    | none => .error .valueError
  | _ => .error .typeError

/-- `float(data[0]['lat']), float(data[0]['lon'])`, evaluated left to
right, propagating the first exception. -/
def geoExtract (data : JsonValue) : Except PyError (Rat × Rat) := do
  let d0 ← pyIndex0 data
  let latv ← pySubscript d0 "lat"
  let lat ← pyFloat latv
  let lonv ← pySubscript d0 "lon"
  let lon ← pyFloat lonv
  return (lat, lon)

/-- The body of `geocode_shrine` after JSON decoding:
`if data and len(data) > 0: return float(...), float(...)` with
`except (json.JSONDecodeError, KeyError, IndexError): pass` — so `KeyError`
and `IndexError` fall through to `return None, None`, while `TypeError` and
`ValueError` escape the function. -/
def geoParse (data : JsonValue) : Except PyError (Option (Rat × Rat)) :=
  if truthy data then
    match pyLen data with
    | .error e => .error e
    | .ok n =>
      if 0 < n then
        match geoExtract data with
        | .ok p => .ok (some p)
        | .error .keyError => .ok none
        | .error .indexError => .ok none
        | .error e => .error e
      else .ok none
  else .ok none

/-- `geocode_shrine(name)` of `scrape-shrines.py`, as a function of the
shrine name and of the geocoding service's decoded response (`Except.error ()`
stands for a `json.JSONDecodeError` from `json.loads`, which the function
catches).  A normal return of `(None, None)` is `Except.ok none`; an escaping
exception is `Except.error e`. -/
def geocode_shrine (name : String) (resp : Except Unit JsonValue) :
    Except PyError (Option (Rat × Rat)) :=
  if name = "" then .ok none
  else
    match resp with
    | .error _ => .ok none
    | .ok data => geoParse data

/-! ## Pipeline orchestrator (`main`) -/

/-- One output record, with exactly the thirteen keys of the dictionary
literal built in `main` (`lat`/`lng` hold `None` as `none`). -/
structure Shrine : Type where
  id : Nat
  name : String
  region : String
  reading : String
  province : String
  prefecture : String
  address : String
  zip : String
  tel : String
  deity : String
  virtue : String
  lat : Option Rat
  lng : Option Rat
deriving DecidableEq, Repr

/-- The dictionary literal appended by `main` for an accepted page
(`info.get(key, '')` on every textual field). -/
def mkShrine (sid : Nat) (link : String) (info : Info) (g : Option (Rat × Rat)) :
    Shrine :=
  { id := sid
    name := info.name.getD ""
    region := extract_region link
    reading := info.reading.getD ""
    province := info.province.getD ""
    prefecture := info.prefecture.getD ""
    address := info.address.getD ""
    zip := info.zip.getD ""
    tel := info.tel.getD ""
    deity := info.deity.getD ""
    virtue := info.virtue.getD ""
    lat := g.map Prod.fst
    lng := g.map Prod.snd }

/-- `info.get('name')` as the acceptance test of `main`: the value of the
name key, with a missing key as the falsy `''`. -/
def infoName (i : Info) : String := i.name.getD ""

/-- The per-link environment of a `main` run: the link found on the listing
page, the markup that fetching the detail page produced, and the decoded
response of the geocoding service for that page's query. -/
structure PageEnv : Type where
  link : String
  html : String
  resp : Except Unit JsonValue

/-- The per-link loop of `main`: extract, test `info.get('name')`, geocode,
append the record and advance `shrine_id`.  The whole body runs inside
`try: ... except Exception: continue`, so an exception escaping
`geocode_shrine` drops the page's record without advancing `shrine_id`. -/
def mainLoop : List PageEnv → Nat → List Shrine
  | [], _ => []
  | e :: rest, sid =>
    if infoName (extract_shrine_info e.html) ≠ "" then
      match geocode_shrine (infoName (extract_shrine_info e.html)) e.resp with
      | .ok g => mkShrine sid e.link (extract_shrine_info e.html) g :: mainLoop rest (sid + 1)
      | .error _ => mainLoop rest sid
    else mainLoop rest sid

/-- The site root of the scraper. -/
def BASE_URL : String := "http://ichinomiya-junpai.jp"

/-- Outcome of one `curl` invocation (`subprocess.run` captures the exit code
and stdout; a transport failure is a nonzero exit code with whatever bytes
curl produced, typically none). -/
structure CurlResult : Type where
  exitCode : Nat
  stdout : String

/-- `fetch(url)` of `scrape-shrines.py`: return `result.stdout` unchanged —
the exit code is never examined and no exception is raised, so a transport
failure is indistinguishable from an empty page. -/
def fetch (curl : String → CurlResult) (url : String) : String :=
  (curl url).stdout

/-- A whole `main` run: fetch the listing page, discover links, then run the
per-link loop with `shrine_id` starting at 1.  `curl` is the transport
oracle; `resps` gives the geocoding service's decoded response per link. -/
def mainRun (curl : String → CurlResult)
    (resps : String → Except Unit JsonValue) : List Shrine :=
  let links := extract_links (fetch curl (BASE_URL ++ "/alllist/"))
  mainLoop (links.map (fun l => ⟨l, fetch curl (BASE_URL ++ l), resps l⟩)) 1

/-! ## Timed model of the geocode rate limit

Time is measured in deciseconds.  Only the `time.sleep` calls guarantee
elapsed time (`time.sleep(1)` ≥ 10, `time.sleep(0.5)` ≥ 5); the durations of
fetches and geocode lookups are environment-chosen nonnegative values.  The
geocode-call timestamp is taken when `geocode_shrine` is entered (when its
`curl` request is issued). -/

/-- Per-link timed environment: page markup, decoded geocode response, and
the environment-chosen durations of the detail-page fetch and of the geocode
lookup itself. -/
structure TimedPage : Type where
  html : String
  resp : Except Unit JsonValue
  fetchDur : Nat
  geoDur : Nat

/-- The timestamps at which `main` issues geocode calls, starting at time
`t`.  An accepted page runs `geocode_shrine`, then `time.sleep(1)` and the
loop-end `time.sleep(0.5)`; if `geocode_shrine` raises, control jumps to the
`except` handler and both sleeps are skipped.  A rejected page runs only the
loop-end `time.sleep(0.5)`. -/
def geocodeTimes : List TimedPage → Nat → List Nat
  | [], _ => []
  | e :: rest, t =>
    let t1 := t + e.fetchDur
    let info := extract_shrine_info e.html
    if infoName info ≠ "" then
      match geocode_shrine (infoName info) e.resp with
      | .ok _ => t1 :: geocodeTimes rest (t1 + e.geoDur + 10 + 5)
      | .error _ => t1 :: geocodeTimes rest (t1 + e.geoDur)
    else geocodeTimes rest (t1 + 5)

/-- Does every pair of consecutive timestamps respect the minimum delay? -/
def minGapsOk (minDelay : Nat) : List Nat → Bool
  | a :: b :: r => (a + minDelay ≤ b) && minGapsOk minDelay (b :: r)
  | _ => true

/-! ## Deduplicator (`info-grip.py`) -/

/-- One row of `info-grip.py`'s scrape: the 神社名 and 所在地 columns. -/
structure GripRecord : Type where
  shrineName : String
  location : String
deriving DecidableEq, Repr

/-- `pandas.DataFrame(...).drop_duplicates()` with the default
`keep='first'`: remove later exact structural duplicates, preserving
first-seen order. -/
def drop_duplicates (l : List GripRecord) : List GripRecord :=
  dedupFirst l

/-! ## Whitespace-normal-form predicates (for the value-cleanup claims) -/

/-- No two adjacent whitespace characters. -/
def noAdjSp : List Char → Bool
  | a :: b :: r => !(pyIsSpace a && pyIsSpace b) && noAdjSp (b :: r)
  | _ => true

/-- The value is whitespace-normalized: whitespace runs collapsed to a single
`' '` and no leading or trailing whitespace. -/
def collapsedOk (l : List Char) : Bool :=
  noAdjSp l && l.all (fun c => !pyIsSpace c || c = ' ') &&
    l.head?.all (fun c => !pyIsSpace c) && l.getLast?.all (fun c => !pyIsSpace c)

/-! ## Concrete inputs and claim-level predicates used by the theorems -/

/-- A detail page whose extraction yields the nonempty name `A`. -/
def namedPage : String := "<td>神社名</td><td>A</td>"

/-- The two-page run violating the rate-limit claim: the first page's
geocode response is the JSON scalar `5` (so `geocode_shrine` raises and the
`time.sleep(1)`/`time.sleep(0.5)` calls after it are skipped), and the
environment durations are zero. -/
def ratePages : List TimedPage :=
  [⟨namedPage, Except.ok (JsonValue.num 5), 0, 0⟩,
   ⟨namedPage, Except.ok (JsonValue.arr []), 0, 0⟩]

/-- The transport oracle of a run in which every curl invocation fails
(curl's timeout exit code 28, nothing captured on stdout). -/
def failingCurl : String → CurlResult := fun _ => ⟨28, ""⟩

/-- The shape `\d{3}-\d{4}` of a captured postal-code group (`\d` being any
Unicode decimal digit). -/
def zipShape : List Char → Bool
  | [a, b, c, '-', d, e, f, g] =>
    pyIsDigit a && pyIsDigit b && pyIsDigit c &&
    pyIsDigit d && pyIsDigit e && pyIsDigit f && pyIsDigit g
  | _ => false

/-- The detail page of the spec's worked example. -/
def zipExampleHtml : String :=
  "<td>神社名</td><td>A</td><td>所在地</td><td>〒100-0001　Tokyo</td>"

/-- The claim's "the cleaned address starts with a token ending in one of the
four prefecture-class suffixes": some prefix of length at least 2 whose last
character is one of 都/道/府/県. -/
def startsWithPrefToken (l : List Char) : Prop :=
  ∃ p t, l = p ++ t ∧ 2 ≤ p.length ∧
    ∃ c, p.getLast? = some c ∧ prefSuffixChar c = true

/-- The detail page used to witness the prefecture rule. -/
def prefExampleHtml : String := "<td>所在地</td><td>東京都港区</td>"

/-- The one-page environment used to witness C10. -/
def c10env : List PageEnv :=
  [⟨"/alllist/a/b/", namedPage, Except.ok (JsonValue.arr [])⟩]

/-- The record that the witness run emits. -/
def c10record : Shrine :=
  mkShrine 1 "/alllist/a/b/" (extract_shrine_info namedPage) none

/-! ## Lemmas about first-occurrence deduplication -/

theorem mem_of_mem_dedupSeen {α : Type} [DecidableEq α] :
    ∀ (l : List α) (seen : List α) (x : α),
      x ∈ dedupSeen seen l → x ∈ l ∧ x ∉ seen := by
  intro l
  induction l with
  | nil => intro seen x hx; simp [dedupSeen] at hx
  | cons y ys ih =>
    intro seen x hx
    by_cases hy : y ∈ seen
    · simp only [dedupSeen, if_pos hy] at hx
      rcases ih seen x hx with ⟨h1, h2⟩
      exact ⟨List.mem_cons_of_mem _ h1, h2⟩
    · simp only [dedupSeen, if_neg hy] at hx
      rcases List.mem_cons.mp hx with h | h
      · subst h; exact ⟨List.mem_cons_self _ _, hy⟩
      · rcases ih (y :: seen) x h with ⟨h1, h2⟩
        exact ⟨List.mem_cons_of_mem _ h1, fun hc => h2 (List.mem_cons_of_mem _ hc)⟩

theorem dedupSeen_sublist {α : Type} [DecidableEq α] :
    ∀ (l : List α) (seen : List α), (dedupSeen seen l).Sublist l := by
  intro l
  induction l with
  | nil => intro seen; simp [dedupSeen]
  | cons y ys ih =>
    intro seen
    by_cases hy : y ∈ seen
    · simpa only [dedupSeen, if_pos hy] using (ih seen).cons y
    · simpa only [dedupSeen, if_neg hy] using (ih (y :: seen)).cons₂ y

theorem dedupSeen_nodup {α : Type} [DecidableEq α] :
    ∀ (l : List α) (seen : List α), (dedupSeen seen l).Nodup := by
  intro l
  induction l with
  | nil => intro seen; simp [dedupSeen]
  | cons y ys ih =>
    intro seen
    by_cases hy : y ∈ seen
    · simpa only [dedupSeen, if_pos hy] using ih seen
    · simp only [dedupSeen, if_neg hy]
      refine List.nodup_cons.mpr ⟨fun hc => ?_, ih (y :: seen)⟩
      exact (mem_of_mem_dedupSeen ys (y :: seen) y hc).2 (List.mem_cons_self _ _)

theorem mem_dedupSeen_of_mem {α : Type} [DecidableEq α] :
    ∀ (l : List α) (seen : List α) (x : α),
      x ∈ l → x ∉ seen → x ∈ dedupSeen seen l := by
  intro l
  induction l with
  | nil => intro seen x hx; simp at hx
  | cons y ys ih =>
    intro seen x hx hs
    by_cases hy : y ∈ seen
    · simp only [dedupSeen, if_pos hy]
      rcases List.mem_cons.mp hx with h | h
      · exact absurd (h ▸ hy) hs
      · exact ih seen x h hs
    · simp only [dedupSeen, if_neg hy]
      rcases List.mem_cons.mp hx with h | h
      · exact h ▸ List.mem_cons_self _ _
      · by_cases hxy : x = y
        · exact hxy ▸ List.mem_cons_self _ _
        · exact List.mem_cons_of_mem _
            (ih (y :: seen) x h (by simp [hxy, hs]))

theorem dedupSeen_eq_self {α : Type} [DecidableEq α] :
    ∀ (l : List α) (seen : List α),
      l.Nodup → (∀ x ∈ l, x ∉ seen) → dedupSeen seen l = l := by
  intro l
  induction l with
  | nil => intro seen _ _; rfl
  | cons y ys ih =>
    intro seen hnd hdisj
    have hy : y ∉ seen := hdisj y (List.mem_cons_self _ _)
    simp only [dedupSeen, if_neg hy]
    rcases List.nodup_cons.mp hnd with ⟨hyys, hnd'⟩
    refine congrArg (y :: ·) (ih (y :: seen) hnd' ?_)
    intro x hx
    intro hc
    rcases List.mem_cons.mp hc with h | h
    · exact hyys (h ▸ hx)
    · exact hdisj x (List.mem_cons_of_mem _ hx) h

theorem dedupFirst_nodup {α : Type} [DecidableEq α] (l : List α) :
    (dedupFirst l).Nodup :=
  dedupSeen_nodup l []

theorem dedupFirst_sublist {α : Type} [DecidableEq α] (l : List α) :
    (dedupFirst l).Sublist l :=
  dedupSeen_sublist l []

theorem mem_dedupFirst {α : Type} [DecidableEq α] (l : List α) (x : α) :
    x ∈ dedupFirst l ↔ x ∈ l := by
  constructor
  · intro h; exact (mem_of_mem_dedupSeen l [] x h).1
  · intro h; exact mem_dedupSeen_of_mem l [] x h (by simp)

theorem dedupFirst_idem {α : Type} [DecidableEq α] (l : List α) :
    dedupFirst (dedupFirst l) = dedupFirst l :=
  dedupSeen_eq_self (dedupFirst l) [] (dedupFirst_nodup l) (by simp)

/-- C9: the deduplicator of `info-grip.py` (`DataFrame.drop_duplicates`) is
idempotent, and a single application removes exactly the later structural
duplicates while preserving first-seen order: the output is a duplicate-free
sublist (hence in first-seen order) of the input with the same members. -/
theorem drop_duplicates_idempotent_order_preserving :
    ∀ l : List GripRecord,
      drop_duplicates (drop_duplicates l) = drop_duplicates l ∧
      (drop_duplicates l).Sublist l ∧
      (drop_duplicates l).Nodup ∧
      (∀ x, x ∈ drop_duplicates l ↔ x ∈ l) := by
  intro l
  exact ⟨dedupFirst_idem l, dedupFirst_sublist l, dedupFirst_nodup l,
    fun x => mem_dedupFirst l x⟩

/-! ## The uncaught-exception slip of `geocode_shrine`

`geocode_shrine` evaluates `len(data)` and `float(...)` on the decoded
response but catches only `json.JSONDecodeError`, `KeyError` and
`IndexError`; a response whose JSON document is, e.g., the scalar `5` makes
`len(data)` raise `TypeError`, which escapes the function.  The concrete
failing inputs below exercise this slip. -/

/-- C2: evaluation at the failing input.  On the well-formed-JSON but
non-array response `5` (with a nonempty query), `geocode_shrine` does not
return `NotFound`: `len(data)` raises `TypeError`, which is not in the
`except` tuple and escapes the component boundary.  (In the pipeline the
surrounding per-link handler then drops the record instead of letting it
proceed without coordinates.) -/
theorem geocode_shrine_raises_on_scalar_response :
    geocode_shrine "A" (Except.ok (JsonValue.num 5)) =
      Except.error PyError.typeError := rfl

/-- C1: evaluation at the failing input.  A page whose extracted name is the
nonempty `"A"` contributes no record when the geocoding response for it is
the JSON scalar `5`: the uncaught `TypeError` from `geocode_shrine` is
swallowed by the per-link `except`, which skips the append.  This
contradicts "a Record is appended if and only if the extracted name is
present and non-empty". -/
theorem named_page_dropped_on_geocoder_exception :
    infoName (extract_shrine_info namedPage) = "A" ∧
    mainLoop [⟨"/alllist/a/b/", namedPage, Except.ok (JsonValue.num 5)⟩] 1 = [] :=
  ⟨rfl, rfl⟩

/-- C8: evaluation at the failing input.  In this run both geocode calls are
issued at time `0` (deciseconds): the exception path skips every sleep, so
the 1-second (10 deciseconds) minimum inter-call delay documented next to
`time.sleep(1)` in `main` is violated and the wall-clock span of the two
calls is `0 < (2 - 1) * 10`. -/
theorem geocode_calls_can_violate_min_delay :
    geocodeTimes ratePages 0 = [0, 0] ∧ minGapsOk 10 [0, 0] = false :=
  ⟨rfl, rfl⟩

/-! ## Fatality of a root-listing fetch failure (C5) -/

/-- C5 counterexample: a run whose root-listing fetch fails is NOT surfaced
as a terminal failure.  `fetch` returns `result.stdout` without examining the
exit code and `main` calls it outside any handler, so the failed root fetch
produces empty markup, zero links, and a normal termination with the empty
record list — exactly the behaviour the claim reserves for a listing page
with zero links. -/
theorem root_fetch_failure_terminates_normally :
    mainRun failingCurl (fun _ => Except.error ()) = [] := rfl

/-- C5 as amended: no run of `main` is terminated by a fetch failure; a root
listing whose markup yields zero links — which includes every failed root
fetch, since `fetch` turns transport failure into whatever stdout curl
produced — ends the run normally with an empty result set. -/
theorem zero_link_listing_yields_empty_run :
    ∀ (curl : String → CurlResult) (resps : String → Except Unit JsonValue),
      extract_links (fetch curl (BASE_URL ++ "/alllist/")) = [] →
      mainRun curl resps = [] := by
  intro curl resps h
  simp [mainRun, h, mainLoop]

/-- Witness for the amended C5 theorem at the failing transport oracle. -/
theorem zero_link_listing_yields_empty_run_witness :
    mainRun failingCurl (fun _ => Except.ok JsonValue.null) = [] :=
  zero_link_listing_yields_empty_run failingCurl _ (by rfl)

/-! ## Shape of the links returned by `extract_links` (C3) -/

theorem insLink_perm (x : List Char) :
    ∀ l, List.Perm (insLink x l) (x :: l) := by
  intro l
  induction l with
  | nil => simp [insLink]
  | cons y rest ih =>
    by_cases h : listLt x y
    · simp [insLink, if_pos h]
    · simp only [insLink, if_neg h]
      exact (ih.cons y).trans (List.Perm.swap x y rest)

theorem insSort_perm : ∀ l, List.Perm (insSort l) l := by
  intro l
  induction l with
  | nil => simp [insSort]
  | cons y rest ih =>
    have : insSort (y :: rest) = insLink y (insSort rest) := rfl
    rw [this]
    exact (insLink_perm y (insSort rest)).trans (ih.cons y)

theorem stringMk_injective : Function.Injective String.mk := by
  intro a b h
  exact congrArg String.data h

theorem tryHref_shape (l link : List Char) (h : tryHref l = some link) :
    ∃ s, link = "/alllist/".data ++ s ∧ validLinkBody s = true := by
  unfold tryHref at h
  by_cases hp : hrefPat.isPrefixOf l
  · rw [if_pos hp] at h
    rcases List.isPrefixOf_iff_prefix.mp hp with ⟨t, ht⟩
    have hsplit : hrefPat = "href=\"".data ++ "/alllist/".data := rfl
    have hlen6 : ("href=\"".data).length = 6 := rfl
    have hd : l.drop 6 = "/alllist/".data ++ t := by
      rw [← ht, hsplit, List.append_assoc, ← hlen6, List.drop_left]
    have hall : ∀ c ∈ "/alllist/".data, (c != '"') = true := by decide
    have hbody : (l.drop 6).takeWhile (fun c => c != '"') =
        "/alllist/".data ++ t.takeWhile (fun c => c != '"') := by
      rw [hd]; exact List.takeWhile_append_of_pos hall
    have hlen9 : ("/alllist/".data).length = 9 := rfl
    split at h
    · split at h
      next hvalid =>
        refine ⟨t.takeWhile (fun c => c != '"'), ?_, ?_⟩
        · rw [← Option.some.inj h, hbody]
        · rw [hbody, ← hlen9, List.drop_left] at hvalid
          exact hvalid
      next => exact absurd h (by simp)
    · exact absurd h (by simp)
  · rw [if_neg hp] at h
    exact absurd h (by simp)

theorem linkScan_shape :
    ∀ (l : List Char) (link : List Char), link ∈ linkScan l →
      ∃ s, link = "/alllist/".data ++ s ∧ validLinkBody s = true := by
  intro l
  induction l with
  | nil => intro link h; simp [linkScan] at h
  | cons c rest ih =>
    intro link h
    rw [linkScan] at h
    rcases hc : tryHref (c :: rest) with - | lk
    · rw [hc] at h; exact ih link h
    · rw [hc] at h
      rcases List.mem_cons.mp h with h1 | h1
      · exact h1 ▸ tryHref_shape (c :: rest) lk hc
      · exact ih link h1

theorem validLinkBody_getLast (s : List Char) (h : validLinkBody s = true) :
    s.getLast? = some '/' := by
  unfold validLinkBody at h
  simp only [Bool.and_eq_true, decide_eq_true_eq] at h
  exact h.1

theorem validLinkBody_count (s : List Char) (h : validLinkBody s = true) :
    2 ≤ s.count '/' := by
  unfold validLinkBody at h
  simp only [Bool.and_eq_true, decide_eq_true_eq] at h
  rcases h with ⟨hlast, h2⟩
  rcases List.any_eq_true.mp h2 with ⟨c, hc, hceq⟩
  have hc' : c = '/' := of_decide_eq_true hceq
  subst hc'
  have hmem : '/' ∈ s.dropLast :=
    (List.drop_sublist 1 s.dropLast).mem ((List.dropLast_sublist _).mem hc)
  have hsplit : s.dropLast ++ ['/'] = s := List.dropLast_append_getLast? '/' hlast
  have hcount : s.count '/' = s.dropLast.count '/' + 1 := by
    conv_lhs => rw [← hsplit]
    rw [List.count_append]
    simp [List.count_singleton]
  rw [hcount]
  have : 0 < s.dropLast.count '/' := List.count_pos_iff.mpr hmem
  omega

/-- C3 counterexample: `extract_links` returns a link with three path
segments after the section root, because `[^"]+` in the link pattern admits
slashes; "exactly two path segments" is therefore false as stated. -/
theorem extract_links_admits_three_segments :
    extract_links "href=\"/alllist/a/b/c/\"" = ["/alllist/a/b/c/"] ∧
    segsAfterRoot "/alllist/a/b/c/" = 3 := ⟨rfl, rfl⟩

/-- C3 as amended: every link returned by Link Discovery starts at the
`/alllist/` section root, ends with a trailing slash, and has AT LEAST two
path segments after the root (the pattern's quote-free groups may themselves
contain slashes, so deeper paths are also accepted); duplicate links in the
input markup produce a single entry in the output. -/
theorem extract_links_shape_and_dedup :
    ∀ html : String,
      (∀ link ∈ extract_links html,
        "/alllist/".data.isPrefixOf link.data = true ∧
        link.data.getLast? = some '/' ∧
        2 ≤ segsAfterRoot link) ∧
      (extract_links html).Nodup := by
  intro html
  constructor
  · intro link hmem
    rcases List.mem_map.mp hmem with ⟨lc, hlc, hmk⟩
    have hdata : link.data = lc := by rw [← hmk]
    have hlc2 : lc ∈ dedupFirst ((linkScan html.data).filter noImgExt) :=
      (insSort_perm _).mem_iff.mp hlc
    have hlc3 : lc ∈ (linkScan html.data).filter noImgExt :=
      (mem_dedupFirst _ _).mp hlc2
    have hlc4 : lc ∈ linkScan html.data := (List.mem_filter.mp hlc3).1
    rcases linkScan_shape html.data lc hlc4 with ⟨s, hs, hvalid⟩
    have hlast : s.getLast? = some '/' := validLinkBody_getLast s hvalid
    have hs_ne : s ≠ [] := by
      intro hnil; rw [hnil] at hlast; simp [List.getLast?] at hlast
    refine ⟨?_, ?_, ?_⟩
    · rw [hdata, hs]
      exact List.isPrefixOf_iff_prefix.mpr ⟨s, rfl⟩
    · rw [hdata, hs]
      rw [List.getLast?_append_of_ne_nil _ hs_ne]
      exact hlast
    · unfold segsAfterRoot
      rw [hdata, hs]
      have hlen9 : ("/alllist/".data).length = 9 := rfl
      rw [← hlen9, List.drop_left]
      exact validLinkBody_count s hvalid
  · exact List.Nodup.map stringMk_injective
      ((insSort_perm _).nodup_iff.mpr (dedupFirst_nodup _))

/-- Witness for the amended C3 theorem on a concrete listing page. -/
theorem extract_links_shape_and_dedup_witness :
    2 ≤ segsAfterRoot "/alllist/a/b/" :=
  ((extract_links_shape_and_dedup "href=\"/alllist/a/b/\"").1
    "/alllist/a/b/" (by decide)).2.2

/-! ## Postal-code extraction (C4) -/

theorem zipTry_sound (l z : List Char) (h : zipTry l = some z) :
    zipShape z = true ∧ ∃ r, l = z ++ r := by
  unfold zipTry at h
  split at h
  next a b c d e f g r =>
    split at h
    next hdig =>
      rcases Option.some.inj h with rfl
      exact ⟨hdig, r, rfl⟩
    next => exact absurd h (by simp)
  next => exact absurd h (by simp)

theorem zipTry_complete (z : List Char) (h : zipShape z = true) (r : List Char) :
    zipTry (z ++ r) = some z := by
  unfold zipShape at h
  split at h
  next a b c d e f g =>
    simp only [List.cons_append, List.nil_append, zipTry, h, if_pos]
  next => exact absurd h (by simp)

theorem zipSearch_sound :
    ∀ (l z : List Char), zipSearch l = some z →
      zipShape z = true ∧ ∃ pre post, l = pre ++ ('〒' :: z) ++ post := by
  intro l
  induction l with
  | nil => intro z h; simp [zipSearch] at h
  | cons c rest ih =>
    intro z h
    by_cases hc : c = '〒'
    · subst hc
      rcases ht : zipTry rest with - | z'
      · rw [zipSearch, if_pos rfl, ht] at h
        rcases ih z h with ⟨hsh, pre, post, hdecomp⟩
        exact ⟨hsh, '〒' :: pre, post, by simp [hdecomp]⟩
      · rw [zipSearch, if_pos rfl, ht] at h
        have h' : some z' = some z := h
        rcases Option.some.inj h' with rfl
        rcases zipTry_sound rest z' ht with ⟨hsh, r, hr⟩
        exact ⟨hsh, [], r, by simp [hr]⟩
    · rw [zipSearch, if_neg hc] at h
      rcases ih z h with ⟨hsh, pre, post, hdecomp⟩
      exact ⟨hsh, c :: pre, post, by simp [hdecomp]⟩

theorem zipSearch_complete :
    ∀ (l : List Char), zipSearch l = none →
      ∀ pre z post, l = pre ++ ('〒' :: z) ++ post → zipShape z = true → False := by
  intro l
  induction l with
  | nil =>
    intro _ pre z post hd _
    exact absurd hd (by simp)
  | cons c rest ih =>
    intro h pre z post hd hsh
    by_cases hc : c = '〒'
    · subst hc
      rcases ht : zipTry rest with - | z'
      · rw [zipSearch, if_pos rfl, ht] at h
        rcases pre with - | ⟨p, pre'⟩
        · simp only [List.nil_append, List.cons_append, List.cons.injEq] at hd
          rcases hd with ⟨-, hrest⟩
          rw [hrest] at ht
          rw [zipTry_complete z hsh post] at ht
          exact absurd ht (by simp)
        · simp only [List.cons_append, List.cons.injEq] at hd
          exact ih h pre' z post hd.2 hsh
      · rw [zipSearch, if_pos rfl, ht] at h
        exact absurd h (by simp)
    · rw [zipSearch, if_neg hc] at h
      rcases pre with - | ⟨p, pre'⟩
      · simp only [List.nil_append, List.cons_append, List.cons.injEq] at hd
        exact hc hd.1
      · simp only [List.cons_append, List.cons.injEq] at hd
        exact ih h pre' z post hd.2 hsh

theorem extract_zip_eq (html : String) :
    (extract_shrine_info html).zip = (zipSearch html.data).map String.mk := rfl

/-- `\d` matches non-ASCII decimal digits too: a fullwidth postal code after
the mark is extracted (and stripped from the address) just as the program's
`re.search(r'〒(\d{3}-\d{4})')` does. -/
theorem zip_fullwidth_digits_extracted :
    (extract_shrine_info "<td>所在地</td><td>〒１２３-４５６７ X</td>").zip =
        some "１２３-４５６７" ∧
    (extract_shrine_info "<td>所在地</td><td>〒１２３-４５６７ X</td>").address =
        some "X" := ⟨rfl, rfl⟩

/-- C4 counterexample: a detail page containing the bare digit pattern
`100-0001` with no postal mark `〒` gets NO postal code — the pattern it
embeds is `〒(\d{3}-\d{4})`, so the mark is required, not optional. -/
theorem zip_absent_without_mark :
    (extract_shrine_info "<td>神社名</td><td>A</td> 100-0001").zip = none := rfl

/-- C4 as amended: the postal code is set exactly when the raw markup
contains the postal mark `〒` immediately followed by `\d{3}-\d{4}` — the
mark is REQUIRED — and the value set is such a digit group occurring right
after a mark in the markup; on the spec's worked example the extractor
yields `name="A"`, `zip="100-0001"`, and the address with the postal code
and mark stripped. -/
theorem zip_extraction_requires_mark :
    ∀ html : String,
      ((extract_shrine_info html).zip.isSome = true ↔
        ∃ pre z post, html.data = pre ++ ('〒' :: z) ++ post ∧ zipShape z = true) ∧
      (∀ zs, (extract_shrine_info html).zip = some zs →
        zipShape zs.data = true ∧
        ∃ pre post, html.data = pre ++ ('〒' :: zs.data) ++ post) ∧
      ((extract_shrine_info zipExampleHtml).name = some "A" ∧
       (extract_shrine_info zipExampleHtml).zip = some "100-0001" ∧
       (extract_shrine_info zipExampleHtml).address = some "Tokyo") := by
  intro html
  refine ⟨⟨?_, ?_⟩, ?_, ⟨rfl, rfl, rfl⟩⟩
  · intro hsome
    rw [extract_zip_eq] at hsome
    rcases hz : zipSearch html.data with - | z
    · rw [hz] at hsome; simp at hsome
    · rcases zipSearch_sound html.data z hz with ⟨hsh, pre, post, hdecomp⟩
      exact ⟨pre, z, post, hdecomp, hsh⟩
  · rintro ⟨pre, z, post, hdecomp, hsh⟩
    rw [extract_zip_eq]
    rcases hz : zipSearch html.data with - | z'
    · exact absurd (zipSearch_complete html.data hz pre z post hdecomp hsh) (by simp)
    · simp
  · intro zs hzs
    rw [extract_zip_eq] at hzs
    rcases hz : zipSearch html.data with - | z
    · rw [hz] at hzs; simp at hzs
    · rw [hz] at hzs
      simp only [Option.map_some'] at hzs
      rcases Option.some.inj hzs with rfl
      rcases zipSearch_sound html.data z hz with ⟨hsh, pre, post, hdecomp⟩
      exact ⟨hsh, pre, post, hdecomp⟩

/-- Witness for the amended C4 theorem on the spec's worked example. -/
theorem zip_extraction_requires_mark_witness :
    zipShape "100-0001".data = true ∧
    ∃ pre post, zipExampleHtml.data = pre ++ ('〒' :: "100-0001".data) ++ post :=
  (zip_extraction_requires_mark zipExampleHtml).2.1 "100-0001" rfl

/-! ## Prefecture derivation (C6) -/

theorem dropRightWhile_prefix_self (p : Char → Bool) :
    ∀ l : List Char, List.IsPrefix (dropRightWhile p l) l := by
  intro l
  induction l with
  | nil => simp [dropRightWhile]
  | cons c rest ih =>
    rcases h : dropRightWhile p rest with - | ⟨x, xs⟩
    · rw [dropRightWhile, h]
      by_cases hp : p c
      · simp [hp]
      · simp [hp]
    · rw [dropRightWhile, h]
      rcases (h ▸ ih :) with ⟨t, ht⟩
      exact ⟨t, by simp [← ht]⟩

theorem mem_pyStrip (l : List Char) (c : Char) (h : c ∈ pyStrip l) : c ∈ l := by
  unfold pyStrip at h
  exact (List.dropWhile_suffix pyIsSpace).sublist.mem
    ((dropRightWhile_prefix_self pyIsSpace _).sublist.mem h)

theorem collapseWs_mem :
    ∀ (l : List Char) (c : Char), c ∈ collapseWs l →
      c = ' ' ∨ pyIsSpace c = false := by
  intro l
  induction l using collapseWs.induct with
  | case1 =>
    intro c h; simp [collapseWs] at h
  | case2 d hd =>
    intro c h
    rw [collapseWs, if_pos hd] at h
    exact Or.inl (by simpa using h)
  | case3 d hd =>
    intro c h
    rw [collapseWs, if_neg hd] at h
    refine Or.inr ?_
    rw [(by simpa using h : c = d)]
    simpa using hd
  | case4 a b rest hab ih =>
    intro c h
    rw [collapseWs, if_pos hab] at h
    exact ih c h
  | case5 a b rest hab ih =>
    intro c h
    rw [collapseWs, if_neg hab] at h
    rcases List.mem_cons.mp h with h1 | h1
    · by_cases ha : pyIsSpace a
      · rw [if_pos ha] at h1; exact Or.inl h1
      · rw [if_neg ha] at h1
        refine Or.inr ?_
        rw [h1]
        simpa using ha
    · exact ih c h1

theorem cleanAddr_no_newline (l : List Char) (c : Char)
    (h : c ∈ cleanAddrChars l) : c ≠ '\n' := by
  unfold cleanAddrChars at h
  rcases collapseWs_mem _ c (mem_pyStrip _ c h) with h1 | h1
  · intro hc; rw [hc] at h1; exact absurd h1 (by decide)
  · intro hc; rw [hc] at h1; exact absurd h1 (by decide)

theorem prefScan_nonempty_acc :
    ∀ (l : List Char) (acc : List Char), acc ≠ [] → (∀ c ∈ l, c ≠ '\n') →
      (prefScan acc l).isSome = l.any prefSuffixChar := by
  intro l
  induction l with
  | nil => intro acc _ _; simp [prefScan]
  | cons c rest ih =>
    intro acc hacc hnl
    have hne : (!acc.isEmpty) = true := by
      rcases acc with - | _
      · exact absurd rfl hacc
      · rfl
    cases hp : prefSuffixChar c with
    | true =>
      rw [prefScan, if_pos (by rw [hne, hp]; rfl)]
      simp [List.any_cons, hp]
    | false =>
      rw [prefScan, if_neg (by rw [hne, hp]; simp),
        if_neg (hnl c (List.mem_cons_self _ _))]
      rw [ih (c :: acc) (by simp) (fun d hd => hnl d (List.mem_cons_of_mem _ hd))]
      simp [List.any_cons, hp]

theorem prefScan_nil_acc :
    ∀ l : List Char, (∀ c ∈ l, c ≠ '\n') →
      (prefScan [] l).isSome = (l.drop 1).any prefSuffixChar := by
  intro l hnl
  rcases l with - | ⟨c, rest⟩
  · simp [prefScan]
  · rw [prefScan, if_neg (by simp), if_neg (hnl c (List.mem_cons_self _ _))]
    rw [prefScan_nonempty_acc rest [c] (by simp)
      (fun d hd => hnl d (List.mem_cons_of_mem _ hd))]
    simp

theorem startsWithPrefToken_iff_any (l : List Char) :
    startsWithPrefToken l ↔ (l.drop 1).any prefSuffixChar = true := by
  constructor
  · rintro ⟨p, t, rfl, hlen, c, hlast, hsuf⟩
    have hp : p.dropLast ++ [c] = p := List.dropLast_append_getLast? c hlast
    have hdl : p.dropLast.length = p.length - 1 := List.length_dropLast p
    have hqlen : 1 ≤ p.dropLast.length := by omega
    rw [List.any_eq_true]
    refine ⟨c, ?_, hsuf⟩
    rw [← hp, List.append_assoc, List.drop_append_of_le_length hqlen]
    exact List.mem_append_right _ (List.mem_cons_self _ _)
  · intro h
    rcases l with - | ⟨c0, rest⟩
    · simp at h
    · rcases List.any_eq_true.mp h with ⟨c, hc, hsuf⟩
      have hc' : c ∈ rest := by simpa using hc
      rcases List.append_of_mem hc' with ⟨ys1, ys2, rfl⟩
      refine ⟨c0 :: ys1 ++ [c], ys2, by simp, by simp, c, ?_, hsuf⟩
      exact List.getLast?_concat _

theorem extract_address_eq (html : String) :
    (extract_shrine_info html).address =
      (searchWith (labelPat "所在地") addrTail html.data).map
        (fun v => String.mk (cleanAddrChars v)) := rfl

theorem extract_pref_eq (html : String) :
    (extract_shrine_info html).prefecture =
      ((extract_shrine_info html).address).bind
        (fun a => (prefScan [] a.data).map String.mk) := rfl

/-- C6: the prefecture field is set exactly when the cleaned address starts
with a token (of length ≥ 2) ending in one of the four suffixes 都/道/府/県;
an address beginning with `東京都` yields exactly `東京都`, and with no
address (or no such prefix) the prefecture is absent. -/
theorem prefecture_prefix_rule :
    ∀ html : String,
      ((extract_shrine_info html).address = none →
        (extract_shrine_info html).prefecture = none) ∧
      (∀ a, (extract_shrine_info html).address = some a →
        ((((extract_shrine_info html).prefecture).isSome = true) ↔
          startsWithPrefToken a.data)) ∧
      (∀ a t, (extract_shrine_info html).address = some a →
        a.data = '東' :: '京' :: '都' :: t →
        (extract_shrine_info html).prefecture = some "東京都") := by
  intro html
  refine ⟨?_, ?_, ?_⟩
  · intro h
    rw [extract_pref_eq, h]
    rfl
  · intro a ha
    rw [extract_pref_eq, ha]
    have hnl : ∀ c ∈ a.data, c ≠ '\n' := by
      rw [extract_address_eq] at ha
      rcases Option.map_eq_some'.mp ha with ⟨v, -, hv⟩
      intro c hc
      rw [← hv] at hc
      exact cleanAddr_no_newline v c hc
    show ((prefScan [] a.data).map String.mk).isSome = true ↔ startsWithPrefToken a.data
    rw [Option.isSome_map', prefScan_nil_acc a.data hnl,
      ← startsWithPrefToken_iff_any]
  · intro a t ha hdata
    rw [extract_pref_eq, ha]
    show (prefScan [] a.data).map String.mk = some "東京都"
    rw [hdata]
    rfl

/-- Witness for the C6 theorem: an address beginning with `東京都` yields
prefecture exactly `東京都`. -/
theorem prefecture_prefix_rule_witness :
    (extract_shrine_info prefExampleHtml).prefecture = some "東京都" :=
  (prefecture_prefix_rule prefExampleHtml).2.2 "東京都港区" "港区".data rfl rfl

/-! ## Whitespace normalization of extracted values (C7) -/

theorem noAdjSp_tail (c : Char) (t : List Char) (h : noAdjSp (c :: t) = true) :
    noAdjSp t = true := by
  rcases t with - | ⟨x, xs⟩
  · rfl
  · rw [noAdjSp] at h
    exact (Bool.and_eq_true_iff.mp h).2

theorem noAdjSp_append_left :
    ∀ (xs ys : List Char), noAdjSp (xs ++ ys) = true → noAdjSp xs = true := by
  intro xs ys
  induction xs with
  | nil => intro _; rfl
  | cons a xs' ih =>
    intro h
    rcases xs' with - | ⟨b, xs''⟩
    · rfl
    · rw [List.cons_append, List.cons_append, noAdjSp] at h
      rcases Bool.and_eq_true_iff.mp h with ⟨h1, h2⟩
      rw [noAdjSp, h1]
      rw [← List.cons_append] at h2
      exact (congrArg (true && ·) (ih h2)).trans (Bool.true_and _)

theorem noAdjSp_append_right :
    ∀ (xs ys : List Char), noAdjSp (xs ++ ys) = true → noAdjSp ys = true := by
  intro xs ys
  induction xs with
  | nil => intro h; exact h
  | cons a xs' ih =>
    intro h
    exact ih (noAdjSp_tail a _ (by simpa using h))

theorem noAdjSp_cons_of_not_space (a : Char) (ha : pyIsSpace a = false)
    (X : List Char) (hX : noAdjSp X = true) : noAdjSp (a :: X) = true := by
  rcases X with - | ⟨x, xs⟩
  · rfl
  · rw [noAdjSp, ha]
    simpa using hX

theorem collapseWs_head_of_not_space (b : Char) (hb : pyIsSpace b = false) :
    ∀ rest : List Char, ∃ r, collapseWs (b :: rest) = b :: r := by
  intro rest
  rcases rest with - | ⟨c, r0⟩
  · exact ⟨[], by simp [collapseWs, hb]⟩
  · have hcond : (pyIsSpace b && pyIsSpace c) = false := by rw [hb]; rfl
    exact ⟨collapseWs (c :: r0), by rw [collapseWs, hcond]; simp [hb]⟩

theorem noAdjSp_collapseWs : ∀ l : List Char, noAdjSp (collapseWs l) = true := by
  intro l
  induction l using collapseWs.induct with
  | case1 => rfl
  | case2 d hd => rw [collapseWs, if_pos hd]; rfl
  | case3 d hd => rw [collapseWs, if_neg hd]; rfl
  | case4 a b rest hab ih => rw [collapseWs, if_pos hab]; exact ih
  | case5 a b rest hab ih =>
    rw [collapseWs, if_neg hab]
    by_cases ha : pyIsSpace a
    · have hb : pyIsSpace b = false := by
        rcases hb : pyIsSpace b with - | -
        · rfl
        · exact absurd (by rw [ha, hb]; rfl : (pyIsSpace a && pyIsSpace b) = true) hab
      rcases collapseWs_head_of_not_space b hb rest with ⟨r, hr⟩
      rw [if_pos ha, hr]
      rw [noAdjSp]
      rw [hb]
      rw [← hr]
      simpa using ih
    · rw [if_neg ha]
      exact noAdjSp_cons_of_not_space a (by simpa using ha) _ ih

theorem dropWhile_head_not (p : Char → Bool) :
    ∀ (l : List Char) (c : Char) (r : List Char),
      l.dropWhile p = c :: r → p c = false := by
  intro l
  induction l with
  | nil => intro c r h; simp [List.dropWhile] at h
  | cons a rest ih =>
    intro c r h
    rw [List.dropWhile] at h
    rcases hp : p a with - | -
    · rw [hp] at h
      rcases List.cons.inj h with ⟨rfl, -⟩
      exact hp
    · rw [hp] at h
      exact ih c r h

theorem dropRightWhile_getLast_not (p : Char → Bool) :
    ∀ (l : List Char) (c : Char),
      (dropRightWhile p l).getLast? = some c → p c = false := by
  intro l
  induction l with
  | nil => intro c h; simp [dropRightWhile] at h
  | cons a rest ih =>
    intro c h
    rw [dropRightWhile] at h
    rcases hd : dropRightWhile p rest with - | ⟨x, xs⟩
    · rw [hd] at h
      rcases hp : p a with - | -
      · rw [hp] at h
        simp at h
        subst h
        exact hp
      · rw [hp] at h
        simp at h
    · rw [hd] at h
      rw [List.getLast?_cons_cons] at h
      rw [← hd] at h
      exact ih c h

theorem head_of_isPrefix {l1 l2 : List Char} (h : List.IsPrefix l1 l2)
    (c : Char) (r : List Char) (hl : l1 = c :: r) : ∃ r2, l2 = c :: r2 := by
  rcases h with ⟨t, rfl⟩
  rw [hl]
  exact ⟨r ++ t, rfl⟩

theorem pyStrip_head_not (l : List Char) (c : Char) (r : List Char)
    (h : pyStrip l = c :: r) : pyIsSpace c = false := by
  unfold pyStrip at h
  rcases head_of_isPrefix (dropRightWhile_prefix_self pyIsSpace (l.dropWhile pyIsSpace))
    c r h with ⟨r2, hr2⟩
  exact dropWhile_head_not pyIsSpace l c r2 hr2

theorem pyStrip_getLast_not (l : List Char) (c : Char)
    (h : (pyStrip l).getLast? = some c) : pyIsSpace c = false :=
  dropRightWhile_getLast_not pyIsSpace (l.dropWhile pyIsSpace) c h

theorem noAdjSp_pyStrip (l : List Char) (h : noAdjSp l = true) :
    noAdjSp (pyStrip l) = true := by
  unfold pyStrip
  have h1 : noAdjSp (l.dropWhile pyIsSpace) = true := by
    rcases List.dropWhile_suffix (l := l) pyIsSpace with ⟨pre, hpre⟩
    exact noAdjSp_append_right pre _ (by rw [hpre]; exact h)
  rcases dropRightWhile_prefix_self pyIsSpace (l.dropWhile pyIsSpace) with ⟨t, ht⟩
  exact noAdjSp_append_left _ t (by rw [ht]; exact h1)

theorem collapsedOk_strip_collapse (x : List Char) :
    collapsedOk (pyStrip (collapseWs x)) = true := by
  have h1 : noAdjSp (pyStrip (collapseWs x)) = true :=
    noAdjSp_pyStrip _ (noAdjSp_collapseWs x)
  have h2 : (pyStrip (collapseWs x)).all (fun c => !pyIsSpace c || c = ' ') = true := by
    rw [List.all_eq_true]
    intro c hc
    rcases collapseWs_mem x c (mem_pyStrip _ c hc) with hc1 | hc1
    · simp [hc1]
    · simp [hc1]
  have h3 : (pyStrip (collapseWs x)).head?.all (fun c => !pyIsSpace c) = true := by
    rcases hh : pyStrip (collapseWs x) with - | ⟨c, r⟩
    · rfl
    · simp only [List.head?_cons, Option.all_some]
      rw [pyStrip_head_not _ c r hh]
      rfl
  have h4 : (pyStrip (collapseWs x)).getLast?.all (fun c => !pyIsSpace c) = true := by
    rcases hh : (pyStrip (collapseWs x)).getLast? with - | c
    · rfl
    · simp only [Option.all_some]
      rw [pyStrip_getLast_not _ c hh]
      rfl
  unfold collapsedOk
  rw [h1, h2, h3, h4]
  rfl

theorem dropWhile_eq_self_of_head (p : Char → Bool) (l : List Char)
    (h : ∀ c r, l = c :: r → p c = false) : l.dropWhile p = l := by
  rcases l with - | ⟨c, r⟩
  · rfl
  · rw [List.dropWhile, h c r rfl]

theorem dropRightWhile_eq_self (p : Char → Bool) :
    ∀ l : List Char, (∀ c, l.getLast? = some c → p c = false) →
      dropRightWhile p l = l := by
  intro l
  induction l with
  | nil => intro _; rfl
  | cons a rest ih =>
    intro h
    rcases rest with - | ⟨x, xs⟩
    · have ha : p a = false := h a rfl
      rw [dropRightWhile]
      simp [dropRightWhile, ha]
    · have hrec : dropRightWhile p (x :: xs) = x :: xs :=
        ih (fun c hc => h c (by rw [List.getLast?_cons_cons]; exact hc))
      rw [dropRightWhile, hrec]

theorem pyStrip_idem (l : List Char) : pyStrip (pyStrip l) = pyStrip l := by
  rcases hl : pyStrip l with - | ⟨c, r⟩
  · rfl
  · have hdw : (c :: r).dropWhile pyIsSpace = c :: r := by
      apply dropWhile_eq_self_of_head
      intro c' r' hcr
      rcases List.cons.inj hcr with ⟨h1, h2⟩
      rw [← h1]
      exact pyStrip_head_not l c r hl
    have hdrw : dropRightWhile pyIsSpace (c :: r) = c :: r := by
      apply dropRightWhile_eq_self
      intro c' hc'
      exact pyStrip_getLast_not l c' (by rw [hl]; exact hc')
    show dropRightWhile pyIsSpace ((c :: r).dropWhile pyIsSpace) = c :: r
    rw [hdw, hdrw]

theorem extract_name_eq (html : String) :
    (extract_shrine_info html).name =
      (searchWith (labelPat "神社名") nameTail html.data).map
        (fun v => String.mk (pyStrip v)) := rfl

theorem extract_reading_eq (html : String) :
    (extract_shrine_info html).reading =
      (searchWith (labelPat "神社名(読み方)") fieldTail html.data).map
        (fun v => String.mk (pyStrip v)) := rfl

theorem extract_province_eq (html : String) :
    (extract_shrine_info html).province =
      (searchWith (labelPat "旧国名") fieldTail html.data).map
        (fun v => String.mk (pyStrip v)) := rfl

theorem extract_deity_eq (html : String) :
    (extract_shrine_info html).deity =
      (searchWith (labelPat "祭神") fieldTail html.data).map
        (fun v => String.mk (pyStrip v)) := rfl

theorem extract_virtue_eq (html : String) :
    (extract_shrine_info html).virtue =
      (searchWith (labelPat "御神徳") fieldTail html.data).map
        (fun v => String.mk (pyStrip v)) := rfl

theorem extract_tel_eq (html : String) :
    (extract_shrine_info html).tel =
      (searchWith (labelPat "電話番号") fieldTail html.data).map
        (fun v => String.mk (pyStrip v)) := rfl

theorem stripped_of_map_pyStrip {o : Option (List Char)} {v : String}
    (h : o.map (fun w => String.mk (pyStrip w)) = some v) :
    pyStrip v.data = v.data := by
  rcases Option.map_eq_some'.mp h with ⟨w, -, hw⟩
  rw [← hw]
  exact pyStrip_idem w

/-- C7 counterexample: the name value keeps its interior double space — only
`.strip()` is applied to it, so interior whitespace runs are NOT collapsed. -/
theorem name_value_not_collapsed :
    (extract_shrine_info "<td>神社名</td>\n<td>A  B</td>").name = some "A  B" ∧
    collapsedOk "A  B".data = false := ⟨rfl, rfl⟩

/-- C7 as amended: only the address value is whitespace-collapsed (runs
become a single space, ends trimmed); every other extracted field (name,
reading, province, deity, virtue, phone) is only trimmed at both ends
(Python `str.strip()`), and interior whitespace runs are preserved. -/
theorem extracted_values_whitespace_rule :
    ∀ html : String,
      (∀ a, (extract_shrine_info html).address = some a →
        collapsedOk a.data = true) ∧
      (∀ v, (extract_shrine_info html).name = some v → pyStrip v.data = v.data) ∧
      (∀ v, (extract_shrine_info html).reading = some v → pyStrip v.data = v.data) ∧
      (∀ v, (extract_shrine_info html).province = some v → pyStrip v.data = v.data) ∧
      (∀ v, (extract_shrine_info html).deity = some v → pyStrip v.data = v.data) ∧
      (∀ v, (extract_shrine_info html).virtue = some v → pyStrip v.data = v.data) ∧
      (∀ v, (extract_shrine_info html).tel = some v → pyStrip v.data = v.data) := by
  intro html
  refine ⟨?_, ?_, ?_, ?_, ?_, ?_, ?_⟩
  · intro a ha
    rw [extract_address_eq] at ha
    rcases Option.map_eq_some'.mp ha with ⟨w, -, hw⟩
    rw [← hw]
    exact collapsedOk_strip_collapse _
  · intro v hv
    exact stripped_of_map_pyStrip ((extract_name_eq html) ▸ hv)
  · intro v hv
    exact stripped_of_map_pyStrip ((extract_reading_eq html) ▸ hv)
  · intro v hv
    exact stripped_of_map_pyStrip ((extract_province_eq html) ▸ hv)
  · intro v hv
    exact stripped_of_map_pyStrip ((extract_deity_eq html) ▸ hv)
  · intro v hv
    exact stripped_of_map_pyStrip ((extract_virtue_eq html) ▸ hv)
  · intro v hv
    exact stripped_of_map_pyStrip ((extract_tel_eq html) ▸ hv)

/-- Witness for the amended C7 theorem: the cleaned address of the worked
example is whitespace-normalized. -/
theorem extracted_values_whitespace_rule_witness :
    collapsedOk "Tokyo".data = true :=
  (extracted_values_whitespace_rule zipExampleHtml).1 "Tokyo" rfl

/-! ## Invariants of the final record set (C10) -/

theorem mainLoop_id_at :
    ∀ (env : List PageEnv) (sid k : Nat) (s : Shrine),
      (mainLoop env sid)[k]? = some s → s.id = sid + k := by
  intro env
  induction env with
  | nil => intro sid k s h; simp [mainLoop] at h
  | cons e rest ih =>
    intro sid k s h
    by_cases hn : infoName (extract_shrine_info e.html) ≠ ""
    · rcases hg : geocode_shrine (infoName (extract_shrine_info e.html)) e.resp
        with g | g
      · rw [mainLoop, if_pos hn, hg] at h
        exact ih sid k s h
      · rw [mainLoop, if_pos hn, hg] at h
        rcases k with - | k'
        · rw [List.getElem?_cons_zero] at h
          rw [← Option.some.inj h]
          rfl
        · rw [List.getElem?_cons_succ] at h
          have := ih (sid + 1) k' s h
          omega
    · rw [mainLoop, if_neg hn] at h
      exact ih sid k s h

theorem mainLoop_mem :
    ∀ (env : List PageEnv) (sid : Nat) (s : Shrine), s ∈ mainLoop env sid →
      ∃ e ∈ env, ∃ g,
        geocode_shrine (infoName (extract_shrine_info e.html)) e.resp =
          Except.ok g ∧
        s = mkShrine s.id e.link (extract_shrine_info e.html) g := by
  intro env
  induction env with
  | nil => intro sid s hs; simp [mainLoop] at hs
  | cons e rest ih =>
    intro sid s hs
    by_cases hn : infoName (extract_shrine_info e.html) ≠ ""
    · rcases hg : geocode_shrine (infoName (extract_shrine_info e.html)) e.resp
        with g | g
      · rw [mainLoop, if_pos hn, hg] at hs
        rcases ih sid s hs with ⟨e2, he2, g2, hg2, hs2⟩
        exact ⟨e2, List.mem_cons_of_mem _ he2, g2, hg2, hs2⟩
      · rw [mainLoop, if_pos hn, hg] at hs
        rcases List.mem_cons.mp hs with h1 | h1
        · refine ⟨e, List.mem_cons_self _ _, g, hg, ?_⟩
          rw [h1]
          rfl
        · rcases ih (sid + 1) s h1 with ⟨e2, he2, g2, hg2, hs2⟩
          exact ⟨e2, List.mem_cons_of_mem _ he2, g2, hg2, hs2⟩
    · rw [mainLoop, if_neg hn] at hs
      rcases ih sid s hs with ⟨e2, he2, g2, hg2, hs2⟩
      exact ⟨e2, List.mem_cons_of_mem _ he2, g2, hg2, hs2⟩

/-- C10: every record of the final output has exactly the thirteen fields of
the `Shrine` structure (one per key of the dictionary literal in `main`); the
`k`-th emitted record carries `id = k + 1` (sequential from 1, in emission
order); every textual field equals the extracted value with a missing label
defaulting to the empty string; and `lat`/`lng` are the two components of the
geocoder's result, both `none` exactly when geocoding returned no result. -/
theorem output_record_invariants :
    ∀ env : List PageEnv,
      (∀ (k : Nat) (s : Shrine), (mainLoop env 1)[k]? = some s →
        s.id = k + 1) ∧
      (∀ s ∈ mainLoop env 1,
        ∃ e ∈ env, ∃ g,
          geocode_shrine (infoName (extract_shrine_info e.html)) e.resp =
            Except.ok g ∧
          s.name = ((extract_shrine_info e.html).name.getD "") ∧
          s.region = extract_region e.link ∧
          s.reading = ((extract_shrine_info e.html).reading.getD "") ∧
          s.province = ((extract_shrine_info e.html).province.getD "") ∧
          s.prefecture = ((extract_shrine_info e.html).prefecture.getD "") ∧
          s.address = ((extract_shrine_info e.html).address.getD "") ∧
          s.zip = ((extract_shrine_info e.html).zip.getD "") ∧
          s.tel = ((extract_shrine_info e.html).tel.getD "") ∧
          s.deity = ((extract_shrine_info e.html).deity.getD "") ∧
          s.virtue = ((extract_shrine_info e.html).virtue.getD "") ∧
          s.lat = g.map Prod.fst ∧ s.lng = g.map Prod.snd ∧
          ((s.lat = none ∧ s.lng = none) ↔ g = none)) := by
  intro env
  constructor
  · intro k s hks
    rw [mainLoop_id_at env 1 k s hks]
    omega
  · intro s hs
    rcases mainLoop_mem env 1 s hs with ⟨e, he, g, hg, hmk⟩
    refine ⟨e, he, g, hg, ?_, ?_, ?_, ?_, ?_, ?_, ?_, ?_, ?_, ?_, ?_, ?_, ?_⟩
    · rw [hmk]; rfl
    · rw [hmk]; rfl
    · rw [hmk]; rfl
    · rw [hmk]; rfl
    · rw [hmk]; rfl
    · rw [hmk]; rfl
    · rw [hmk]; rfl
    · rw [hmk]; rfl
    · rw [hmk]; rfl
    · rw [hmk]; rfl
    · rw [hmk]; rfl
    · rw [hmk]; rfl
    · constructor
      · rintro ⟨hlat, -⟩
        have : (mkShrine s.id e.link (extract_shrine_info e.html) g).lat = none := by
          rw [← hmk]; exact hlat
        have hmap : g.map Prod.fst = none := this
        exact Option.map_eq_none'.mp hmap
      · intro hgnone
        subst hgnone
        constructor
        · rw [hmk]; rfl
        · rw [hmk]; rfl

/-- Witness for the C10 theorem on a concrete one-page run. -/
theorem output_record_invariants_witness :
    c10record.id = 0 + 1 :=
  (output_record_invariants c10env).1 0 c10record (by decide)
